import Mathlib

/-!
# Verification of nexpy GUI logic (import dialog and custom widgets)

Shallow embedding of the pure logic of two source files:

* `src/nexpy/gui/widgets.py` — the data-bound spin box `NXSpinBox`
  (axis `centers`, `indexFromValue`, `valueFromIndex`, `stepBy`) and the
  draggable shapes `NXcircle` / `NXrectangle` (press-time `initialize`
  snapshot and per-motion `update`).
* `src/gui/importdialog.py` — `BaseImportDialog` file/directory pickers,
  `get_filesindirectory`, and the `natural_sort` key function.

Python floats are idealized as `ℚ` (exact arithmetic) except for the circle,
whose code calls `np.sqrt`; that geometry is embedded over `ℝ` with
`Real.sqrt`.  A Python expression that can raise (out-of-range indexing,
`os.chdir` on a missing directory, mixed-type comparison in `sorted`) is
embedded as `Option`/`Except`, with `none`/`.error` marking the raised
exception.
-/

set_option linter.unusedVariables false

/- Batteries marks the `Rat` arithmetic operations `@[irreducible]`, which
blocks `decide`-style kernel evaluation on concrete rationals.  The logic
embedded here is executable, so re-enable unfolding for this file. -/
attribute [local semireducible] Rat.sub Rat.add Rat.mul Rat.inv Rat.ofScientific

namespace Nexpy

/-- Python's `abs` / `np.abs` on exact rationals, written so that it
kernel-evaluates on concrete inputs (Mathlib's lattice `|·|` does not).
`absQ_eq_abs` below identifies it with `|·|`. -/
def absQ (q : ℚ) : ℚ := if q < 0 then -q else q

/-! ## NXSpinBox (widgets.py lines 49-173)

State of the spin box: `data` is the bound axis array (`self.data`; the
unbound `None` case is not modelled — every claim concerns a bound axis),
`index` is the underlying Qt integer value (`super().value()`), `maximum`
is the Qt range maximum (set by the host to `len(data) - 1`), `diff` is the
constant increment (`self.diff`; Python treats `None` and `0.0` alike as
"not configured", modelled as `diff = 0`), and `pause` is the pause flag. -/

structure SpinBoxState where
  data : List ℚ
  index : ℕ
  maximum : ℕ
  diff : ℚ
  pause : Bool
deriving DecidableEq, Repr

namespace NXSpinBox

/-- The `centers` property: `self.data[::-1]` if `self.data[-1] < self.data[0]`
(the `reversed` property), else `self.data`.  On an empty array the Python
`data[-1]` raises, hence `none`. -/
def centers : List ℚ → Option (List ℚ)
  | [] => none
  | x :: xs =>
    if (x :: xs).getLast (List.cons_ne_nil x xs) < x then some ((x :: xs).reverse)
    else some (x :: xs)

/-- First-occurrence argmin of `|entry - v|` over the nonempty list
`x :: l`, returning the index together with the minimal absolute
difference.  `np.abs(centers - value).argmin()` returns the first index
attaining the minimum, which the strict comparison below reproduces. -/
def argminAux (v : ℚ) (x : ℚ) : List ℚ → ℕ × ℚ
  | [] => (0, absQ (x - v))
  | y :: ys =>
    let p := argminAux v y ys
    if absQ (x - v) ≤ p.2 then (0, absQ (x - v)) else (p.1 + 1, p.2)

/-- Embeds `indexFromValue(value)`: `(np.abs(self.centers - value)).argmin()`.
`none` models the numpy error on an empty array. -/
def indexFromValue (c : List ℚ) (v : ℚ) : Option ℕ :=
  match c with
  | [] => none
  | x :: xs => some (argminAux v x xs).1

/-- Embeds `valueFromIndex(idx)`: `centers[0]` if `idx < 0`, `centers[-1]` if
`idx > self.maximum()`, else `centers[idx]` (raising when `idx` is within
`[0, maximum]` but beyond the end of the list). -/
def valueFromIndex (c : List ℚ) (maximum : ℕ) (idx : ℤ) : Option ℚ :=
  if idx < 0 then c.head?
  else if (maximum : ℤ) < idx then c.getLast?
  else c.get? idx.toNat

/-- Embeds `stepBy(steps)` (widgets.py lines 158-173).  Returns the updated state
together with `true` for the unconditional `self.valueChanged.emit(1)` at
the end; `none` models a raised exception on the way.  The accepted
`self.setValue(value)` stores `indexFromValue(value)` clamped by Qt to the
spin box range `[0, maximum]`. -/
def stepBy (s : SpinBoxState) (steps : ℤ) : Option (SpinBoxState × Bool) :=
  if s.diff ≠ 0 then
    match centers s.data with
    | none => none
    | some c =>
      match c.get? s.index with
      | none => none
      | some v =>
        let val := v + (steps : ℚ) * s.diff
        match c.getLast?, c.head? with
        | some clast, some chead =>
          if val ≤ clast + s.diff / 100 ∧ val - s.diff ≥ chead - s.diff / 100 then
            match indexFromValue c val with
            | none => none
            | some i => some ({ s with pause := false, index := min i s.maximum }, true)
          else some ({ s with pause := true }, true)
        | _, _ => none
  else
    if (s.index : ℤ) + steps ≤ (s.maximum : ℤ) ∧ 0 ≤ (s.index : ℤ) + steps then
      some ({ s with pause := false, index := ((s.index : ℤ) + steps).toNat }, true)
    else some ({ s with pause := true }, true)

end NXSpinBox

/-! ## NXrectangle (widgets.py lines 409-450)

The rectangle shape state mirrors the matplotlib `Rectangle`: `xy` origin
(lower-left corner) plus width and height.  A press on the shape captures
the snapshot tuple `(x0, y0, w0, h0, xp, yp, expand)` returned by
`initialize`, stored in `self.press`. -/

structure RectangleState where
  x : ℚ
  y : ℚ
  width : ℚ
  height : ℚ
deriving DecidableEq, Repr

structure RectanglePress where
  x0 : ℚ
  y0 : ℚ
  w0 : ℚ
  h0 : ℚ
  xp : ℚ
  yp : ℚ
  expand : Bool
deriving DecidableEq, Repr

namespace NXrectangle

/-- Embeds `NXrectangle.update(x, y)`: `dx, dy = (x-xp, y-yp)`; if expanding, the
left-edge test is a plain `if`, while the right-, bottom- and top-edge
tests form an `if/elif/elif` chain (`bt` is `self.border_tol`); if moving,
translate the origin.  Field writes use the press snapshot; untouched
fields keep the current shape value `r`. -/
def update (r : RectangleState) (p : RectanglePress) (bt : ℚ) (x y : ℚ) :
    RectangleState :=
  let dx := x - p.xp
  let dy := y - p.yp
  if p.expand then
    let r1 :=
      if absQ (p.x0 - p.xp) < bt * p.w0 then
        { r with x := p.x0 + dx, width := p.w0 - dx }
      else r
    if absQ (p.x0 + p.w0 - p.xp) < bt * p.w0 then
      { r1 with width := p.w0 + dx }
    else if absQ (p.y0 - p.yp) < bt * p.h0 then
      { r1 with y := p.y0 + dy, height := p.h0 - dy }
    else if absQ (p.y0 + p.h0 - p.yp) < bt * p.h0 then
      { r1 with height := p.h0 + dy }
    else r1
  else
    { r with x := p.x0 + dx, y := p.y0 + dy }

end NXrectangle

/-! ## NXcircle (widgets.py lines 375-406)

The circle shape state mirrors the matplotlib `Circle`: center and
radius.  The code calls `np.sqrt`, so this geometry is embedded over `ℝ`
with `Real.sqrt` (hence the definitions are noncomputable and the
press-time flag uses the classical decision procedure). -/

structure CircleState where
  cx : ℝ
  cy : ℝ
  radius : ℝ

structure CirclePress where
  x0 : ℝ
  y0 : ℝ
  r0 : ℝ
  xp : ℝ
  yp : ℝ
  expand : Bool

namespace NXcircle

open Classical in
/-- Embeds `NXcircle.initialize(xp, yp)`: records center, radius and press point,
and sets `expand` to whether resizing is allowed and
`np.sqrt((xp-x0)**2 + (yp-y0)**2) > r0 * (1 - border_tol)`. -/
noncomputable def initPress (c : CircleState) (allow_resize : Bool)
    (border_tol xp yp : ℝ) : CirclePress :=
  { x0 := c.cx, y0 := c.cy, r0 := c.radius, xp := xp, yp := yp,
    expand := decide (allow_resize = true ∧
      Real.sqrt ((xp - c.cx) ^ 2 + (yp - c.cy) ^ 2) >
        c.radius * (1 - border_tol)) }

/-- Embeds `NXcircle.update(x, y)`: `dx, dy = (x-xp, y-yp)`; if expanding, set
the radius to `np.sqrt((xp+dx-x0)**2 + (yp+dy-y0)**2)` (center
untouched); if moving, set the center to `(x0+dx, y0+dy)` and the radius
back to `r0`. -/
noncomputable def update (c : CircleState) (p : CirclePress) (x y : ℝ) :
    CircleState :=
  let dx := x - p.xp
  let dy := y - p.yp
  if p.expand then
    { c with radius := Real.sqrt ((p.xp + dx - p.x0) ^ 2 + (p.yp + dy - p.y0) ^ 2) }
  else
    { cx := p.x0 + dx, cy := p.y0 + dy, radius := p.r0 }

end NXcircle

/-! ## BaseImportDialog file/directory pickers (importdialog.py lines 57-77)

`choose_file` runs `QtGui.QFileDialog.getOpenFileName` and then
unconditionally executes `self.filename.setText(str(filename))`;
`choose_directory` does the same with `getExistingDirectory` and the
directory text box.  The Qt dialogs return the empty string when the user
cancels, modelled as `none` below. -/

/-- The `str(result)` of a Qt file/directory dialog: the chosen path on
confirmation, the empty string on cancellation. -/
def dialogText : Option String → String
  | some path => path
  | none => ""

namespace BaseImportDialog

/-- Embeds `choose_file`: the new content of the file text box after the dialog
returns — the prior content `filenameText` is overwritten unconditionally
by `str(filename)`. -/
def choose_file (filenameText : String) (picked : Option String) : String :=
  dialogText picked

/-- Embeds `choose_directory`: the new content of the directory text box after
the dialog returns — the prior content is overwritten unconditionally by
`str(dir)`. -/
def choose_directory (directoryText : String) (picked : Option String) : String :=
  dialogText picked

end BaseImportDialog

/-! ## natural_sort and get_filesindirectory (importdialog.py lines 85-115)

`natural_sort(key)` is
`[int(t) if t.isdigit() else t for t in re.split(r'(\d+)', key)]`:
`re.split` with a capturing group of maximal digit runs returns the
(possibly empty) non-digit chunks interleaved with the digit runs, and the
digit runs are converted to integers.  A key is therefore a list of
tokens, each a piece of text or a number. -/

inductive NSToken where
  | str : String → NSToken
  | num : ℕ → NSToken
deriving DecidableEq, Repr

/-- Intermediate representation of `re.split(r'(\d+)', key)`: the raw
chunks, before digit runs are converted by `int`.  `txt` chunks are the
non-captured pieces (possibly empty), `digs` chunks the captured maximal
digit runs (never empty). -/
inductive RawTok where
  | txt : List Char → RawTok
  | digs : List Char → RawTok
deriving DecidableEq, Repr

/-- Embeds `int(t)` on a string of decimal digits. -/
def digitsToNat (ds : List Char) : ℕ :=
  ds.foldl (fun a c => a * 10 + (c.toNat - '0'.toNat)) 0

/-- Split a character list as `re.split(r'(\d+)', ·)` does: alternating
(possibly empty) non-digit chunks and maximal digit runs, starting and
ending with a non-digit chunk.  Processing from the left: a digit either
extends the leading digit run of the remainder's split (merge case) or
starts a new run; a non-digit extends the leading text chunk. -/
def rawSplit : List Char → List RawTok
  | [] => [.txt []]
  | c :: cs =>
    if c.isDigit then
      match rawSplit cs with
      | .txt [] :: .digs d :: rest => .txt [] :: .digs (c :: d) :: rest
      | toks => .txt [] :: .digs [c] :: toks
    else
      match rawSplit cs with
      | .txt s :: rest => .txt (c :: s) :: rest
      | toks => .txt [c] :: toks

/-- Embeds `int(t) if t.isdigit() else t`, applied to a raw chunk. -/
def RawTok.toToken : RawTok → NSToken
  | .txt s => .str (String.mk s)
  | .digs d => .num (digitsToNat d)

/-- Embeds `natural_sort(key)` — the sort key of a filename. -/
def natural_sort (key : String) : List NSToken :=
  (rawSplit key.data).map RawTok.toToken

/-- Python 3 comparison of two key elements: numbers compare numerically,
strings lexicographically (by code point), and comparing a number with a
string raises `TypeError` (`none`). -/
def tokCmp : NSToken → NSToken → Option Ordering
  | .num a, .num b => some (compare a b)
  | .str a, .str b => some (compare a b)
  | _, _ => none

/-- Python list comparison of two keys: lexicographic, element by element;
the first differing position decides, a strict prefix is smaller, and a
mixed-type comparison at the deciding position raises (`none`). -/
def keyCmp : List NSToken → List NSToken → Option Ordering
  | [], [] => some Ordering.eq
  | [], _ :: _ => some Ordering.lt
  | _ :: _, [] => some Ordering.gt
  | a :: as, b :: bs =>
    match tokCmp a b with
    | none => none
    | some Ordering.eq => keyCmp as bs
    | some o => some o

/-- Embeds `natural_sort a < natural_sort b` as evaluated by Python's `sorted`
with `key=natural_sort`; `none` is a raised `TypeError`. -/
def keyLt (a b : String) : Option Bool :=
  match keyCmp (natural_sort a) (natural_sort b) with
  | none => none
  | some Ordering.lt => some true
  | some _ => some false

/-- Stable insertion of `x` after every already-placed element that is not
strictly greater, propagating a raised comparison. -/
def insertSorted (x : String) : List String → Option (List String)
  | [] => some [x]
  | y :: ys =>
    match keyLt x y with
    | none => none
    | some true => some (x :: y :: ys)
    | some false => (insertSorted x ys).map (fun l => y :: l)

/-- Embeds `sorted(l, key=natural_sort)`: a stable sort of `l` by the
natural-sort key (elements are taken left to right and inserted after
their equals), `none` if any key comparison raises. -/
def sorted_natural (l : List String) : Option (List String) :=
  l.foldlM (fun acc x => insertSorted x acc) []

/-- Shape invariant of `re.split(r'(\d+)', ·)` output: a (possibly empty)
digit-free text chunk, then alternately a non-empty all-digit run and a
digit-free text chunk, ending with a text chunk. -/
def rawWF : List RawTok → Bool
  | [RawTok.txt s] => s.all (fun ch => !ch.isDigit)
  | RawTok.txt s :: RawTok.digs d :: rest =>
      s.all (fun ch => !ch.isDigit) && d.all Char.isDigit && !d.isEmpty && rawWF rest
  | _ => false

/-- Errors `get_filesindirectory` can raise: `os.chdir` on a missing or
never-selected directory raises a file-not-found error; a mixed-type key
comparison in `sorted` would raise a `TypeError` (provably unreachable). -/
inductive ImportError where
  | directoryNotFound
  | typeMismatch
deriving DecidableEq, Repr

/-- Embeds `get_filesindirectory()`: `os.chdir(self.get_directory())` followed by
`os.listdir(os.getcwd())` and `sorted(filenames, key=natural_sort)`.  The
filesystem is abstracted as `listdir`, mapping a directory path to its
entries, or to `none` when `chdir` would raise (nonexistent path; in
particular the empty string stored when no directory was ever chosen). -/
def get_filesindirectory (listdir : String → Option (List String))
    (directoryText : String) : Except ImportError (List String) :=
  match listdir directoryText with
  | none => Except.error ImportError.directoryNotFound
  | some filenames =>
    match sorted_natural filenames with
    | none => Except.error ImportError.typeMismatch
    | some l => Except.ok l

end Nexpy

namespace Nexpy

/-! ## Helper lemmas for the spin box -/

open NXSpinBox

theorem absQ_eq_abs (q : ℚ) : absQ q = |q| := by
  unfold absQ
  rcases lt_or_le q 0 with h | h
  · rw [if_pos h, abs_of_neg h]
  · rw [if_neg (not_lt.mpr h), abs_of_nonneg h]

theorem argminAux_spec (v x : ℚ) (l : List ℚ) :
    ∃ w, (x :: l).get? (argminAux v x l).1 = some w ∧
      (argminAux v x l).2 = absQ (w - v) ∧
      (∀ j z, (x :: l).get? j = some z → (argminAux v x l).2 ≤ absQ (z - v)) ∧
      (∀ j z, j < (argminAux v x l).1 → (x :: l).get? j = some z →
        (argminAux v x l).2 < absQ (z - v)) := by
  induction l generalizing x with
  | nil =>
    refine ⟨x, rfl, rfl, ?_, ?_⟩
    · intro j z hz
      cases j with
      | zero => simp at hz; subst hz; simp [argminAux]
      | succ k => simp at hz
    · intro j z hj hz
      simp [argminAux] at hj
  | cons y ys ih =>
    obtain ⟨w, hw, hsnd, hmin, hfirst⟩ := ih y
    by_cases h : absQ (x - v) ≤ (argminAux v y ys).2
    · refine ⟨x, ?_, ?_, ?_, ?_⟩
      · simp [argminAux, h]
      · simp [argminAux, h]
      · intro j z hz
        simp only [argminAux, h, if_pos]
        cases j with
        | zero => simp at hz; simp [hz]
        | succ k =>
          simp only [List.get?_cons_succ] at hz
          exact le_trans h (hmin k z hz)
      · intro j z hj hz
        simp [argminAux, h] at hj
    · refine ⟨w, ?_, ?_, ?_, ?_⟩
      · simpa [argminAux, h] using hw
      · simpa [argminAux, h] using hsnd
      · intro j z hz
        simp only [argminAux, h, if_neg, not_false_iff]
        cases j with
        | zero =>
          simp at hz
          subst hz
          exact le_of_lt (lt_of_not_le h)
        | succ k =>
          simp only [List.get?_cons_succ] at hz
          exact hmin k z hz
      · intro j z hj hz
        simp only [argminAux, h, if_neg, not_false_iff] at hj ⊢
        cases j with
        | zero =>
          simp at hz
          subst hz
          exact lt_of_not_le h
        | succ k =>
          simp only [List.get?_cons_succ] at hz
          have hk : k < (argminAux v y ys).1 := by omega
          exact hfirst k z hk hz

theorem indexFromValue_spec (c : List ℚ) (v : ℚ) (hc : c ≠ []) :
    ∃ i w, indexFromValue c v = some i ∧ c.get? i = some w ∧
      (∀ j z, c.get? j = some z → |w - v| ≤ |z - v|) ∧
      (∀ j z, j < i → c.get? j = some z → |w - v| < |z - v|) := by
  match c with
  | [] => exact absurd rfl hc
  | x :: xs =>
    obtain ⟨w, hw, hsnd, hmin, hfirst⟩ := argminAux_spec v x xs
    refine ⟨(argminAux v x xs).1, w, rfl, hw, ?_, ?_⟩
    · intro j z hz
      have := hmin j z hz
      rwa [hsnd, absQ_eq_abs, absQ_eq_abs] at this
    · intro j z hj hz
      have := hfirst j z hj hz
      rwa [hsnd, absQ_eq_abs, absQ_eq_abs] at this

theorem centers_spec (data : List ℚ) (h : data ≠ []) :
    ∃ c, centers data = some c ∧ c.length = data.length ∧ c ≠ [] := by
  match data with
  | [] => exact absurd rfl h
  | x :: xs =>
    unfold centers
    by_cases hrev : (x :: xs).getLast (List.cons_ne_nil x xs) < x
    · exact ⟨(x :: xs).reverse, by simp [hrev], by simp, by simp⟩
    · exact ⟨x :: xs, by simp [hrev], rfl, List.cons_ne_nil x xs⟩

theorem getLast?_some_of_ne_nil {α : Type} (l : List α) (h : l ≠ []) :
    ∃ a, l.getLast? = some a := by
  match l with
  | [] => exact absurd rfl h
  | x :: xs => exact ⟨(x :: xs).getLast (List.cons_ne_nil x xs), List.getLast?_eq_getLast _ _⟩

theorem get?_some_of_lt {α : Type} (l : List α) (i : ℕ) (h : i < l.length) :
    ∃ a, l.get? i = some a :=
  ⟨l.get ⟨i, h⟩, List.get?_eq_get h⟩

theorem get?_lt_length {α : Type} {l : List α} {i : ℕ} {a : α}
    (h : l.get? i = some a) : i < l.length := by
  by_contra hcon
  rw [List.get?_eq_getElem?, List.getElem?_eq_none (by omega)] at h
  exact Option.noConfusion h

/-! ## Claim theorems for the spin box index/value maps -/

/-- Claim C5: `indexFromValue(v)` returns the index of the centers element
with minimum absolute difference from `v`, ties resolved by the lowest
(first-occurring) index, and `valueFromIndex(indexFromValue(v))` is a
centers element at distance from `v` no greater than that of any other
centers element. -/
theorem C5_indexFromValue_nearest (c : List ℚ) (v : ℚ) (maximum : ℕ)
    (hc : c ≠ []) (hmax : maximum + 1 = c.length) :
    ∃ i w, indexFromValue c v = some i ∧ c.get? i = some w ∧
      valueFromIndex c maximum (i : ℤ) = some w ∧
      (∀ j z, c.get? j = some z → |w - v| ≤ |z - v|) ∧
      (∀ j z, j < i → c.get? j = some z → |w - v| < |z - v|) := by
  obtain ⟨i, w, hi, hw, hmin, hfirst⟩ := indexFromValue_spec c v hc
  have hilen : i < c.length := get?_lt_length hw
  refine ⟨i, w, hi, hw, ?_, hmin, hfirst⟩
  unfold valueFromIndex
  rw [if_neg (by omega), if_neg (by omega)]
  simpa using hw

/-- Witness for C5 at `centers = [1, 3]`, `v = 0`, `maximum = 1`. -/
theorem C5_witness :
    (([1, 3] : List ℚ) ≠ [] ∧ 1 + 1 = ([1, 3] : List ℚ).length) ∧
    (∃ i w, indexFromValue [1, 3] (0 : ℚ) = some i ∧
      ([1, 3] : List ℚ).get? i = some w ∧
      valueFromIndex [1, 3] 1 (i : ℤ) = some w ∧
      (∀ j z, ([1, 3] : List ℚ).get? j = some z → |w - 0| ≤ |z - 0|) ∧
      (∀ j z, j < i → ([1, 3] : List ℚ).get? j = some z → |w - 0| < |z - 0|)) :=
  ⟨⟨by decide, by decide⟩, C5_indexFromValue_nearest [1, 3] 0 1 (by decide) (by decide)⟩

/-- Claim C4, counterexample to the claim as stated: on the bound axis
`centers = [1, 1]` (non-empty, maximum = 1) the valid index `i = 1`
round-trips to `0`, because `argmin` resolves the tie to the first
occurrence.  The claim promised `indexFromValue (valueFromIndex 1) = 1`. -/
theorem C4_counterexample :
    valueFromIndex [1, 1] 1 ((1 : ℕ) : ℤ) = some 1 ∧
    indexFromValue [1, 1] (1 : ℚ) = some 0 ∧ (0 : ℕ) ≠ 1 := by decide

/-- Claim C4 (amended): for every bound axis whose centers are pairwise
distinct (`Nodup`), and every valid index `i` in `[0, maximum]` with
`maximum` within the axis length, `indexFromValue (valueFromIndex i) = i`. -/
theorem C4_roundtrip (c : List ℚ) (maximum i : ℕ) (hnd : c.Nodup)
    (hi : i ≤ maximum) (hlen : maximum < c.length) :
    ∃ w, valueFromIndex c maximum (i : ℤ) = some w ∧
      indexFromValue c w = some i := by
  have hilen : i < c.length := lt_of_le_of_lt hi hlen
  obtain ⟨w, hw⟩ := get?_some_of_lt c i hilen
  have hcne : c ≠ [] := by
    intro hnil
    rw [hnil] at hilen
    simp at hilen
  refine ⟨w, ?_, ?_⟩
  · unfold valueFromIndex
    rw [if_neg (by omega), if_neg (by omega)]
    simpa using hw
  · obtain ⟨r, w', hr, hw', hmin, hfirst⟩ := indexFromValue_spec c w hcne
    have hle : |w' - w| ≤ |w - w| := hmin i w hw
    have hw'w : w' = w := by
      rw [sub_self, abs_zero] at hle
      have : |w' - w| = 0 := le_antisymm hle (abs_nonneg _)
      have := abs_eq_zero.mp this
      linarith
    have hreq : c.get? r = c.get? i := by
      rw [hw, hw', hw'w]
    have hrlen : r < c.length := get?_lt_length hw'
    have : r = i := by
      rw [List.get?_eq_getElem?, List.get?_eq_getElem?] at hreq
      exact List.getElem?_inj hrlen hnd hreq
    rw [← this]
    exact hr

/-! ## Claim theorems for `stepBy` -/

/-- Claim C1, counterexample to the claim as stated: axis
`centers = [0, 3/5, 1, 10]`, `diff = 1/2`, current value `3/5` (index 1),
`stepBy(-1)`.  The attempted value `3/5 - 1/2 = 1/10` lies inside the
claimed acceptance interval
`[center₀ - tolerance, center_last + tolerance] = [-1/200, 10 + 1/200]`,
yet the code rejects the step (the lower-bound test in the source is
`value - diff >= centers[0] - tolerance`, not `value >= ...`): the pause
flag is set and the index does not move. -/
theorem C1_counterexample :
    ((0 : ℚ) - (1/2) / 100 ≤ 3/5 + ((-1 : ℤ) : ℚ) * (1/2) ∧
      (3 : ℚ)/5 + ((-1 : ℤ) : ℚ) * (1/2) ≤ 10 + (1/2) / 100) ∧
    NXSpinBox.stepBy ⟨[0, 3/5, 1, 10], 1, 3, 1/2, false⟩ (-1) =
      some (⟨[0, 3/5, 1, 10], 1, 3, 1/2, true⟩, true) := by decide

/-- Claim C1 (amended): with a nonzero constant increment `diff`, `stepBy`
advances the value by `steps * diff` and accepts (stores the nearest index
and clears the pause flag) if and only if the attempted value `val`
satisfies `val ≤ center_last + tolerance` AND
`val - diff ≥ center₀ - tolerance` (tolerance = diff/100); otherwise the
pause flag is set and the value does not move.  (The claim's lower bound
`val ≥ center₀ - tolerance` is what fails; the code additionally
subtracts `diff` on the lower side.) -/
theorem C1_stepBy_diff (s : SpinBoxState) (steps : ℤ) (c : List ℚ)
    (v clast chead : ℚ)
    (hdiff : s.diff ≠ 0)
    (hc : centers s.data = some c)
    (hv : c.get? s.index = some v)
    (hlast : c.getLast? = some clast)
    (hhead : c.head? = some chead) :
    ∃ s', stepBy s steps = some (s', true) ∧
      (s'.pause = false ↔
        (v + (steps : ℚ) * s.diff ≤ clast + s.diff / 100 ∧
          v + (steps : ℚ) * s.diff - s.diff ≥ chead - s.diff / 100)) ∧
      ((v + (steps : ℚ) * s.diff ≤ clast + s.diff / 100 ∧
          v + (steps : ℚ) * s.diff - s.diff ≥ chead - s.diff / 100) →
        ∃ i, indexFromValue c (v + (steps : ℚ) * s.diff) = some i ∧
          s' = { s with pause := false, index := min i s.maximum }) ∧
      (¬ (v + (steps : ℚ) * s.diff ≤ clast + s.diff / 100 ∧
          v + (steps : ℚ) * s.diff - s.diff ≥ chead - s.diff / 100) →
        s' = { s with pause := true }) := by
  have hcne : c ≠ [] := by
    intro h
    rw [h] at hhead
    exact Option.noConfusion hhead
  unfold stepBy
  rw [if_pos hdiff]
  simp only [hc, hv, hlast, hhead]
  by_cases hcond : (v + (steps : ℚ) * s.diff ≤ clast + s.diff / 100 ∧
      v + (steps : ℚ) * s.diff - s.diff ≥ chead - s.diff / 100)
  · rw [if_pos hcond]
    have hidx : ∃ i, indexFromValue c (v + (steps : ℚ) * s.diff) = some i := by
      match c, hcne with
      | x :: xs, _ => exact ⟨_, rfl⟩
    obtain ⟨i, hi⟩ := hidx
    rw [hi]
    refine ⟨_, rfl, ?_, ?_, ?_⟩
    · exact iff_of_true rfl hcond
    · intro _
      exact ⟨i, rfl, rfl⟩
    · intro hn
      exact absurd hcond hn
  · rw [if_neg hcond]
    refine ⟨_, rfl, ?_, ?_, ?_⟩
    · exact iff_of_false (by simp) hcond
    · intro hcc
      exact absurd hcc hcond
    · intro _
      rfl

/-- Witness for C1 (amended): axis `[0, 1, 2]`, `diff = 1`, index 0,
`stepBy(1)` — the attempted value `1` is accepted and stored. -/
theorem C1_witness :
    ((1 : ℚ) ≠ 0 ∧ centers [0, 1, 2] = some [0, 1, 2] ∧
      ([0, 1, 2] : List ℚ).get? 0 = some 0 ∧
      ([0, 1, 2] : List ℚ).getLast? = some 2 ∧
      ([0, 1, 2] : List ℚ).head? = some 0) ∧
    (∃ s', stepBy ⟨[0, 1, 2], 0, 2, 1, false⟩ 1 = some (s', true) ∧
      (s'.pause = false ↔
        ((0 : ℚ) + ((1 : ℤ) : ℚ) * 1 ≤ 2 + 1 / 100 ∧
          (0 : ℚ) + ((1 : ℤ) : ℚ) * 1 - 1 ≥ 0 - 1 / 100)) ∧
      (((0 : ℚ) + ((1 : ℤ) : ℚ) * 1 ≤ 2 + 1 / 100 ∧
          (0 : ℚ) + ((1 : ℤ) : ℚ) * 1 - 1 ≥ 0 - 1 / 100) →
        ∃ i, indexFromValue [0, 1, 2] ((0 : ℚ) + ((1 : ℤ) : ℚ) * 1) = some i ∧
          s' = ⟨[0, 1, 2], min i 2, 2, 1, false⟩) ∧
      (¬ ((0 : ℚ) + ((1 : ℤ) : ℚ) * 1 ≤ 2 + 1 / 100 ∧
          (0 : ℚ) + ((1 : ℤ) : ℚ) * 1 - 1 ≥ 0 - 1 / 100) →
        s' = ⟨[0, 1, 2], 0, 2, 1, true⟩)) :=
  ⟨⟨by decide, by decide, by decide, by decide, by decide⟩,
    C1_stepBy_diff ⟨[0, 1, 2], 0, 2, 1, false⟩ 1 [0, 1, 2] 0 2 0
      (by decide) (by decide) (by decide) (by decide) (by decide)⟩

/-- Claim C7: on a bound axis (data non-empty, current index in range),
`stepBy` never errors: it returns a state and always emits the
value-changed notification (the `true` component), and whenever the pause
flag ends up set, the stored index and the data are unchanged (a soft
clamp, not a failure). -/
theorem C7_stepBy_soft_clamp (s : SpinBoxState) (steps : ℤ)
    (hne : s.data ≠ []) (hidx : s.index < s.data.length) :
    ∃ s', stepBy s steps = some (s', true) ∧
      (s'.pause = true → s'.index = s.index ∧ s'.data = s.data) := by
  by_cases hdiff : s.diff ≠ 0
  · obtain ⟨c, hc, hlen, hcne⟩ := centers_spec s.data hne
    obtain ⟨v, hv⟩ := get?_some_of_lt c s.index (by rw [hlen]; exact hidx)
    obtain ⟨clast, hlast⟩ := getLast?_some_of_ne_nil c hcne
    have hhead : ∃ chead, c.head? = some chead := by
      match c, hcne with
      | x :: xs, _ => exact ⟨x, rfl⟩
    obtain ⟨chead, hhead⟩ := hhead
    unfold stepBy
    rw [if_pos hdiff]
    simp only [hc, hv, hlast, hhead]
    by_cases hcond : (v + (steps : ℚ) * s.diff ≤ clast + s.diff / 100 ∧
        v + (steps : ℚ) * s.diff - s.diff ≥ chead - s.diff / 100)
    · rw [if_pos hcond]
      have hidx2 : ∃ i, indexFromValue c (v + (steps : ℚ) * s.diff) = some i := by
        match c, hcne with
        | x :: xs, _ => exact ⟨_, rfl⟩
      obtain ⟨i, hi⟩ := hidx2
      rw [hi]
      exact ⟨_, rfl, by simp⟩
    · rw [if_neg hcond]
      exact ⟨_, rfl, fun _ => ⟨rfl, rfl⟩⟩
  · unfold stepBy
    rw [if_neg hdiff]
    by_cases hcond : ((s.index : ℤ) + steps ≤ (s.maximum : ℤ) ∧
        0 ≤ (s.index : ℤ) + steps)
    · rw [if_pos hcond]
      exact ⟨_, rfl, by simp⟩
    · rw [if_neg hcond]
      exact ⟨_, rfl, fun _ => ⟨rfl, rfl⟩⟩

/-- Witness for C7: axis `[0, 1, 2]` at the top index 2, `stepBy(1)` steps
beyond the range — no error, notification emitted, pause set, index
unchanged. -/
theorem C7_witness :
    (([0, 1, 2] : List ℚ) ≠ [] ∧ 2 < ([0, 1, 2] : List ℚ).length) ∧
    (∃ s', stepBy ⟨[0, 1, 2], 2, 2, 0, false⟩ 1 = some (s', true) ∧
      (s'.pause = true → s'.index = 2 ∧ s'.data = [0, 1, 2])) :=
  ⟨⟨by decide, by decide⟩,
    C7_stepBy_soft_clamp ⟨[0, 1, 2], 2, 2, 0, false⟩ 1 (by decide) (by decide)⟩

/-- Witness for C4 (amended) at `centers = [1, 3]`, `maximum = 1`, `i = 1`. -/
theorem C4_witness :
    (([1, 3] : List ℚ).Nodup ∧ (1 : ℕ) ≤ 1 ∧ 1 < ([1, 3] : List ℚ).length) ∧
    (∃ w, valueFromIndex [1, 3] 1 ((1 : ℕ) : ℤ) = some w ∧
      indexFromValue [1, 3] w = some 1) :=
  ⟨⟨by decide, by decide, by decide⟩,
    C4_roundtrip [1, 3] 1 1 (by decide) (by decide) (by decide)⟩

/-! ## Helper lemmas for natural_sort -/

theorem rawWF_head (l : List RawTok) (h : rawWF l = true) :
    (∃ s, l = [RawTok.txt s] ∧ s.all (fun ch => !ch.isDigit) = true) ∨
    (∃ s d rest, l = RawTok.txt s :: RawTok.digs d :: rest ∧
      s.all (fun ch => !ch.isDigit) = true ∧ d.all Char.isDigit = true ∧
      d.isEmpty = false ∧ rawWF rest = true) := by
  match l with
  | [] => simp [rawWF] at h
  | [RawTok.txt s] =>
    left
    exact ⟨s, rfl, by simpa [rawWF] using h⟩
  | RawTok.digs d :: r => simp [rawWF] at h
  | RawTok.txt s :: RawTok.txt s' :: r => simp [rawWF] at h
  | RawTok.txt s :: RawTok.digs d :: r =>
    right
    simp only [rawWF, Bool.and_eq_true, Bool.not_eq_true'] at h
    exact ⟨s, d, r, rfl, h.1.1.1, h.1.1.2, h.1.2, h.2⟩

theorem rawWF_shape_false (t : List RawTok)
    (h1 : ∀ s, t = [RawTok.txt s] → False)
    (h2 : ∀ s d rest, t = RawTok.txt s :: RawTok.digs d :: rest → False) :
    rawWF t = false := by
  match t with
  | [] => rfl
  | [RawTok.txt s] => exact (h1 s rfl).elim
  | RawTok.digs d :: r => rfl
  | RawTok.txt s :: RawTok.txt s' :: r => rfl
  | RawTok.txt s :: RawTok.digs d :: r => exact (h2 s d r rfl).elim

theorem rawSplit_wf (cs : List Char) : rawWF (rawSplit cs) = true := by
  induction cs using rawSplit.induct with
  | case1 => rfl
  | case2 c cs hdig d rest heq ih =>
    rw [heq] at ih
    simp only [rawWF, Bool.and_eq_true, Bool.not_eq_true'] at ih
    simp only [rawSplit, hdig, if_true, heq]
    simp only [rawWF, Bool.and_eq_true, Bool.not_eq_true']
    exact ⟨⟨⟨by simp, by simp [hdig, ih.1.1.2]⟩, by simp⟩, ih.2⟩
  | case3 c cs hdig hne ih =>
    rcases rawWF_head _ ih with ⟨s, hs, hall⟩ | ⟨s, d, rest, hsd, halls, halld, hdne, hrest⟩
    · simp only [rawSplit, hdig, if_true, hs]
      simp only [rawWF, Bool.and_eq_true, Bool.not_eq_true']
      exact ⟨⟨⟨by simp, by simp [hdig]⟩, by simp⟩, by simpa [rawWF] using hall⟩
    · rcases s with _ | ⟨a, as⟩
      · exact (hne d rest hsd).elim
      · simp only [rawSplit, hdig, if_true, hsd]
        simp only [rawWF, Bool.and_eq_true, Bool.not_eq_true']
        exact ⟨⟨⟨by simp, by simp [hdig]⟩, by simp⟩, ⟨⟨⟨halls, halld⟩, hdne⟩, hrest⟩⟩
  | case4 c cs hdig s rest heq ih =>
    have hcf : c.isDigit = false := by revert hdig; cases c.isDigit <;> simp
    rw [heq] at ih
    simp only [rawSplit, hcf, Bool.false_eq_true, if_false, heq]
    rcases rest with _ | ⟨t2, rest2⟩
    · simp only [rawWF, List.all_cons, Bool.and_eq_true, Bool.not_eq_true'] at ih ⊢
      exact ⟨hcf, ih⟩
    · rcases t2 with s2 | d2
      · rw [rawWF_shape_false _ (by intro s' hs'; simp at hs')
          (by intro a b r hr; simp at hr)] at ih
        exact Bool.noConfusion ih
      · simp only [rawWF, List.all_cons, Bool.and_eq_true, Bool.not_eq_true'] at ih ⊢
        exact ⟨⟨⟨⟨hcf, ih.1.1.1⟩, ih.1.1.2⟩, ih.1.2⟩, ih.2⟩
  | case5 c cs hdig hne ih =>
    have := rawWF_shape_false (rawSplit cs)
      (fun s hs => hne s [] (by rw [hs]))
      (fun s d rest hs => hne s (RawTok.digs d :: rest) (by rw [hs]))
    rw [this] at ih
    exact Bool.noConfusion ih

theorem rawWF_txt_mem : ∀ (l : List RawTok), rawWF l = true → ∀ (u : List Char),
    RawTok.txt u ∈ l → u.all (fun ch => !ch.isDigit) = true := by
  intro l
  induction l using rawWF.induct with
  | case1 s =>
    intro h u hm
    have hus := List.mem_singleton.mp hm
    injection hus with h2
    subst h2
    simpa [rawWF] using h
  | case2 s d rest ih =>
    intro h u hm
    simp only [rawWF, Bool.and_eq_true, Bool.not_eq_true'] at h
    rcases List.mem_cons.mp hm with heq | hm2
    · injection heq with h2
      subst h2
      exact h.1.1.1
    · rcases List.mem_cons.mp hm2 with heq2 | hm3
      · exact RawTok.noConfusion heq2
      · exact ih h.2 u hm3
  | case3 t h1 h2 =>
    intro h
    rw [rawWF_shape_false t h1 h2] at h
    exact Bool.noConfusion h

theorem rawWF_parity : ∀ (l : List RawTok), rawWF l = true → ∀ i : ℕ,
    (i % 2 = 0 → ∀ t, l.get? i = some t → ∃ s, t = RawTok.txt s) ∧
    (i % 2 = 1 → ∀ t, l.get? i = some t → ∃ d, t = RawTok.digs d) := by
  intro l
  induction l using rawWF.induct with
  | case1 s =>
    intro h i
    constructor
    · intro hi t ht
      rcases i with _ | k
      · simp only [List.get?_cons_zero, Option.some.injEq] at ht
        exact ⟨s, ht.symm⟩
      · rw [List.get?_cons_succ] at ht
        simp at ht
    · intro hi t ht
      rcases i with _ | k
      · exact absurd hi (by decide)
      · rw [List.get?_cons_succ] at ht
        simp at ht
  | case2 s d rest ih =>
    intro h i
    simp only [rawWF, Bool.and_eq_true, Bool.not_eq_true'] at h
    have ih' := ih h.2
    constructor
    · intro hi t ht
      rcases i with _ | ⟨_ | k⟩
      · simp only [List.get?_cons_zero, Option.some.injEq] at ht
        exact ⟨s, ht.symm⟩
      · exact absurd hi (by decide)
      · simp only [List.get?_cons_succ] at ht
        exact (ih' k).1 (by omega) t ht
    · intro hi t ht
      rcases i with _ | ⟨_ | k⟩
      · exact absurd hi (by decide)
      · simp only [List.get?_cons_succ, List.get?_cons_zero, Option.some.injEq] at ht
        exact ⟨d, ht.symm⟩
      · simp only [List.get?_cons_succ] at ht
        exact (ih' k).2 (by omega) t ht
  | case3 t h1 h2 =>
    intro h
    rw [rawWF_shape_false t h1 h2] at h
    exact Bool.noConfusion h

theorem keyCmp_nil_left (m : List NSToken) : keyCmp [] m ≠ none := by
  cases m <;> simp [keyCmp]

theorem keyCmp_nil_right (l : List NSToken) : keyCmp l [] ≠ none := by
  cases l <;> simp [keyCmp]

theorem keyCmp_str_cons (a b : String) (as bs : List NSToken)
    (h : keyCmp as bs ≠ none) :
    keyCmp (NSToken.str a :: as) (NSToken.str b :: bs) ≠ none := by
  simp only [keyCmp, tokCmp]
  rcases hc : compare a b with _ | _ | _ <;> simp [hc, h]

theorem keyCmp_num_cons (a b : ℕ) (as bs : List NSToken)
    (h : keyCmp as bs ≠ none) :
    keyCmp (NSToken.num a :: as) (NSToken.num b :: bs) ≠ none := by
  simp only [keyCmp, tokCmp]
  rcases hc : compare a b with _ | _ | _ <;> simp [hc, h]

theorem keyCmp_map_wf : ∀ (l : List RawTok), rawWF l = true →
    ∀ (m : List RawTok), rawWF m = true →
    keyCmp (l.map RawTok.toToken) (m.map RawTok.toToken) ≠ none := by
  intro l
  induction l using rawWF.induct with
  | case1 s =>
    intro hl m hm
    rcases rawWF_head m hm with ⟨s', rfl, _⟩ | ⟨s', d', rest', rfl, _, _, _, _⟩
    · simp only [List.map_cons, List.map_nil, RawTok.toToken]
      exact keyCmp_str_cons _ _ _ _ (keyCmp_nil_left _)
    · simp only [List.map_cons, List.map_nil, RawTok.toToken]
      exact keyCmp_str_cons _ _ _ _ (keyCmp_nil_left _)
  | case2 s d rest ih =>
    intro hl m hm
    simp only [rawWF, Bool.and_eq_true, Bool.not_eq_true'] at hl
    rcases rawWF_head m hm with ⟨s', rfl, _⟩ | ⟨s', d', rest', rfl, _, _, _, hm2⟩
    · simp only [List.map_cons, List.map_nil, RawTok.toToken]
      exact keyCmp_str_cons _ _ _ _ (keyCmp_nil_right _)
    · simp only [List.map_cons, RawTok.toToken]
      exact keyCmp_str_cons _ _ _ _ (keyCmp_num_cons _ _ _ _ (ih hl.2 rest' hm2))
  | case3 t h1 h2 =>
    intro hl
    rw [rawWF_shape_false t h1 h2] at hl
    exact Bool.noConfusion hl

theorem keyLt_isSome (a b : String) : ∃ v, keyLt a b = some v := by
  have h : keyCmp (natural_sort a) (natural_sort b) ≠ none :=
    keyCmp_map_wf (rawSplit a.data) (rawSplit_wf a.data)
      (rawSplit b.data) (rawSplit_wf b.data)
  unfold keyLt
  rcases hk : keyCmp (natural_sort a) (natural_sort b) with _ | o
  · exact absurd hk h
  · rcases o with _ | _ | _
    · exact ⟨true, rfl⟩
    · exact ⟨false, rfl⟩
    · exact ⟨false, rfl⟩

theorem insertSorted_isSome (x : String) (l : List String) :
    ∃ m, insertSorted x l = some m := by
  induction l with
  | nil => exact ⟨[x], rfl⟩
  | cons y ys ih =>
    obtain ⟨v, hv⟩ := keyLt_isSome x y
    obtain ⟨m, hm⟩ := ih
    cases v
    · exact ⟨y :: m, by simp [insertSorted, hv, hm]⟩
    · exact ⟨x :: y :: ys, by simp [insertSorted, hv]⟩

theorem foldl_insert_isSome (l : List String) : ∀ acc : List String,
    ∃ m, List.foldlM (fun acc x => insertSorted x acc) acc l = some m := by
  induction l with
  | nil => intro acc; exact ⟨acc, rfl⟩
  | cons x xs ih =>
    intro acc
    obtain ⟨m1, hm1⟩ := insertSorted_isSome x acc
    obtain ⟨m2, hm2⟩ := ih m1
    refine ⟨m2, ?_⟩
    rw [List.foldlM_cons, hm1]
    simpa using hm2

theorem sorted_natural_isSome (l : List String) : ∃ m, sorted_natural l = some m :=
  foldl_insert_isSome l []

theorem rawSplit_no_digit (cs : List Char) (h : ∀ c ∈ cs, c.isDigit = false) :
    rawSplit cs = [RawTok.txt cs] := by
  induction cs with
  | nil => rfl
  | cons c cs ih =>
    have hc : c.isDigit = false := h c (by simp)
    have ih' := ih (fun c' hc' => h c' (by simp [hc']))
    simp [rawSplit, hc, ih']

/-! ## Claim theorems for `NXrectangle.update` -/

/-- Claim C2, counterexample to the claim as stated: rectangle at origin
`(0,0)` with width 4, height 4, `border_tol = 1/10`; press at
`(1/10, 1/10)` (near the left AND bottom edges) in expand mode, motion to
`(11/10, 11/10)` (drag delta `(1,1)`).  Both the horizontal geometry
(`x`, `width`) and the vertical geometry (`y`, `height`) are adjusted in
this single motion event, because the left-edge test is a plain `if`, not
part of the `elif` chain — contradicting "at most one edge adjustment is
applied". -/
theorem C2_counterexample :
    NXrectangle.update ⟨0, 0, 4, 4⟩ ⟨0, 0, 4, 4, 1/10, 1/10, true⟩ (1/10)
        (11/10) (11/10) = ⟨1, 1, 3, 3⟩ ∧
    ((NXrectangle.update ⟨0, 0, 4, 4⟩ ⟨0, 0, 4, 4, 1/10, 1/10, true⟩ (1/10)
        (11/10) (11/10)).x ≠ 0 ∨
      (NXrectangle.update ⟨0, 0, 4, 4⟩ ⟨0, 0, 4, 4, 1/10, 1/10, true⟩ (1/10)
        (11/10) (11/10)).width ≠ 4) ∧
    ((NXrectangle.update ⟨0, 0, 4, 4⟩ ⟨0, 0, 4, 4, 1/10, 1/10, true⟩ (1/10)
        (11/10) (11/10)).y ≠ 0 ∨
      (NXrectangle.update ⟨0, 0, 4, 4⟩ ⟨0, 0, 4, 4, 1/10, 1/10, true⟩ (1/10)
        (11/10) (11/10)).height ≠ 4) := by decide

/-- Claim C2 (amended): in `NXrectangle.update` with expand = true, only
the right/bottom/top tests form a priority (`elif`) chain; the left-edge
test is an independent `if`.  Hence per motion event at most one axis is
adjusted — the horizontal fields or the vertical fields are left
unchanged — EXCEPT when the press is within the left band, outside the
right band, and within the bottom or top band, in which case both axes
are adjusted (a press near the left-bottom or left-top corner resizes
both dimensions). -/
theorem C2_update_edge_chain (r : RectangleState) (p : RectanglePress)
    (bt x y : ℚ) (hexp : p.expand = true) :
    ((NXrectangle.update r p bt x y).x = r.x ∧
      (NXrectangle.update r p bt x y).width = r.width) ∨
    ((NXrectangle.update r p bt x y).y = r.y ∧
      (NXrectangle.update r p bt x y).height = r.height) ∨
    (absQ (p.x0 - p.xp) < bt * p.w0 ∧
      ¬ absQ (p.x0 + p.w0 - p.xp) < bt * p.w0 ∧
      (absQ (p.y0 - p.yp) < bt * p.h0 ∨ absQ (p.y0 + p.h0 - p.yp) < bt * p.h0)) := by
  by_cases hL : absQ (p.x0 - p.xp) < bt * p.w0 <;>
    by_cases hR : absQ (p.x0 + p.w0 - p.xp) < bt * p.w0 <;>
      by_cases hT : absQ (p.y0 - p.yp) < bt * p.h0 <;>
        by_cases hB : absQ (p.y0 + p.h0 - p.yp) < bt * p.h0 <;>
          simp [NXrectangle.update, hexp, hL, hR, hT, hB]

/-- Witness for C2 (amended) at the left-bottom corner press of the
counterexample configuration. -/
theorem C2_witness :
    (RectanglePress.expand ⟨0, 0, 4, 4, 1/10, 1/10, true⟩ = true) ∧
    (((NXrectangle.update ⟨0, 0, 4, 4⟩ ⟨0, 0, 4, 4, 1/10, 1/10, true⟩ (1/10)
          (11/10) (11/10)).x = (0 : ℚ) ∧
        (NXrectangle.update ⟨0, 0, 4, 4⟩ ⟨0, 0, 4, 4, 1/10, 1/10, true⟩ (1/10)
          (11/10) (11/10)).width = (4 : ℚ)) ∨
      (((NXrectangle.update ⟨0, 0, 4, 4⟩ ⟨0, 0, 4, 4, 1/10, 1/10, true⟩ (1/10)
          (11/10) (11/10)).y = (0 : ℚ) ∧
        (NXrectangle.update ⟨0, 0, 4, 4⟩ ⟨0, 0, 4, 4, 1/10, 1/10, true⟩ (1/10)
          (11/10) (11/10)).height = (4 : ℚ))) ∨
      (absQ ((0 : ℚ) - 1/10) < (1/10) * 4 ∧
        ¬ absQ ((0 : ℚ) + 4 - 1/10) < (1/10) * 4 ∧
        (absQ ((0 : ℚ) - 1/10) < (1/10) * 4 ∨
          absQ ((0 : ℚ) + 4 - 1/10) < (1/10) * 4))) :=
  ⟨rfl,
    C2_update_edge_chain ⟨0, 0, 4, 4⟩ ⟨0, 0, 4, 4, 1/10, 1/10, true⟩ (1/10)
      (11/10) (11/10) rfl⟩

/-! ## Claim theorems for the import dialog pickers -/

/-- Claim C3, counterexample to the claim as stated: with a previously
stored selection `"/home/user/data.txt"`, cancelling the picker stores the
dialog's empty-string return — the prior selection is NOT left unchanged. -/
theorem C3_counterexample :
    BaseImportDialog.choose_file "/home/user/data.txt" none = "" ∧
    BaseImportDialog.choose_directory "/home/user" none = "" ∧
    ("" : String) ≠ "/home/user/data.txt" :=
  ⟨rfl, rfl, by decide⟩

/-- Claim C3 (amended): cancelling the file (or directory) picker does not
preserve the prior selection: the handler unconditionally stores the
dialog result, so on cancellation the stored text becomes the empty
string, and on confirmation it becomes the chosen path. -/
theorem C3_cancel_overwrites (prior : String) :
    BaseImportDialog.choose_file prior none = "" ∧
    BaseImportDialog.choose_directory prior none = "" ∧
    (∀ path, BaseImportDialog.choose_file prior (some path) = path) ∧
    (∀ path, BaseImportDialog.choose_directory prior (some path) = path) :=
  ⟨rfl, rfl, fun _ => rfl, fun _ => rfl⟩

/-! ## Claim theorems for natural_sort -/

/-- Claim C8: `natural_sort` is total on arbitrary strings — a string with
no digits yields a single text token, leading/trailing digits produce
(empty-text-padded) well-formed keys rather than errors — it splits its
input on maximal runs of digits (every text token is digit-free)
converting each digit run to an integer, and sorting filenames by this
key orders numeric parts numerically:
`sort(["data10.tif","data2.tif","data1.tif"])` returns
`["data1.tif","data2.tif","data10.tif"]`. -/
theorem C8_natural_sort_key :
    (∀ s : String, (∀ c ∈ s.data, c.isDigit = false) →
      natural_sort s = [NSToken.str s]) ∧
    (natural_sort "data10.tif" =
      [NSToken.str "data", NSToken.num 10, NSToken.str ".tif"]) ∧
    (natural_sort "10" = [NSToken.str "", NSToken.num 10, NSToken.str ""]) ∧
    (∀ s t, NSToken.str t ∈ natural_sort s → ∀ c ∈ t.data, c.isDigit = false) ∧
    (sorted_natural ["data10.tif", "data2.tif", "data1.tif"] =
      some ["data1.tif", "data2.tif", "data10.tif"]) := by
  refine ⟨?_, by decide, by decide, ?_, by decide⟩
  · intro s h
    rw [natural_sort, rawSplit_no_digit s.data h]
    rfl
  · intro s t hmem c hc
    obtain ⟨raw, hraw, htok⟩ := List.mem_map.mp hmem
    rcases raw with u | d
    · simp only [RawTok.toToken] at htok
      injection htok with h2
      have hall := rawWF_txt_mem (rawSplit s.data) (rawSplit_wf s.data) u hraw
      rw [← h2] at hc
      have hcu : c ∈ u := hc
      have := List.all_eq_true.mp hall c hcu
      simpa using this
    · simp [RawTok.toToken] at htok

/-- Witness for C8 at the digit-free string `"abc"` and a digit-free
token check on `"data10.tif"`. -/
theorem C8_witness :
    ((∀ c ∈ ("abc" : String).data, c.isDigit = false) ∧
      natural_sort "abc" = [NSToken.str "abc"]) ∧
    (NSToken.str ".tif" ∈ natural_sort "data10.tif" ∧
      ∀ c ∈ (".tif" : String).data, c.isDigit = false) :=
  ⟨⟨by decide, C8_natural_sort_key.1 "abc" (by decide)⟩,
    ⟨by decide, C8_natural_sort_key.2.2.2.1 "data10.tif" ".tif" (by decide)⟩⟩

/-- Claim C10 (implicit): for every input string the natural-sort key
alternates token types by position — tokens at even positions are
(possibly empty) digit-free strings, tokens at odd positions are
integers — so comparing any two keys never compares an integer with a
string (`keyCmp` never raises), and sorting any list of strings with this
key never raises a type error (`sorted_natural` always succeeds). -/
theorem C10_key_alternation :
    (∀ (s : String) (i : ℕ),
      (i % 2 = 0 → ∀ t, (natural_sort s).get? i = some t →
        ∃ u : String, t = NSToken.str u ∧ ∀ c ∈ u.data, c.isDigit = false) ∧
      (i % 2 = 1 → ∀ t, (natural_sort s).get? i = some t →
        ∃ n : ℕ, t = NSToken.num n)) ∧
    (∀ a b : String, keyCmp (natural_sort a) (natural_sort b) ≠ none) ∧
    (∀ l : List String, ∃ m, sorted_natural l = some m) := by
  refine ⟨?_, ?_, sorted_natural_isSome⟩
  · intro s i
    have hwf := rawSplit_wf s.data
    constructor
    · intro hi t ht
      have hmap : (natural_sort s).get? i =
          ((rawSplit s.data).get? i).map RawTok.toToken := by
        simp [natural_sort, List.get?_eq_getElem?, List.getElem?_map]
      rw [hmap] at ht
      rcases hr : (rawSplit s.data).get? i with _ | raw
      · rw [hr] at ht
        simp at ht
      · rw [hr] at ht
        simp only [Option.map_some'] at ht
        injection ht with ht2
        obtain ⟨u, hu⟩ := (rawWF_parity _ hwf i).1 hi raw hr
        subst hu
        refine ⟨String.mk u, ht2.symm, ?_⟩
        intro c hc
        have hall := rawWF_txt_mem _ hwf u (List.get?_mem hr)
        have hcu : c ∈ u := hc
        have := List.all_eq_true.mp hall c hcu
        simpa using this
    · intro hi t ht
      have hmap : (natural_sort s).get? i =
          ((rawSplit s.data).get? i).map RawTok.toToken := by
        simp [natural_sort, List.get?_eq_getElem?, List.getElem?_map]
      rw [hmap] at ht
      rcases hr : (rawSplit s.data).get? i with _ | raw
      · rw [hr] at ht
        simp at ht
      · rw [hr] at ht
        simp only [Option.map_some'] at ht
        injection ht with ht2
        obtain ⟨d, hd⟩ := (rawWF_parity _ hwf i).2 hi raw hr
        subst hd
        exact ⟨digitsToNat d, ht2.symm⟩
  · intro a b
    exact keyCmp_map_wf (rawSplit a.data) (rawSplit_wf a.data)
      (rawSplit b.data) (rawSplit_wf b.data)

/-- Witness for C10: the token of `"a10"` at odd position 1 is an
integer, the even position 0 is a digit-free string, comparing the keys
of `"a"` and `"1"` does not raise, and sorting succeeds on a concrete
list. -/
theorem C10_witness :
    (∃ u : String, NSToken.str "a" = NSToken.str u ∧
      ∀ c ∈ u.data, c.isDigit = false) ∧
    (∃ n : ℕ, NSToken.num 10 = NSToken.num n) ∧
    keyCmp (natural_sort "a") (natural_sort "1") ≠ none ∧
    (∃ m, sorted_natural ["data2.tif", "data1.tif"] = some m) :=
  ⟨(C10_key_alternation.1 "a10" 0).1 rfl (NSToken.str "a") (by decide),
    (C10_key_alternation.1 "a10" 1).2 rfl (NSToken.num 10) (by decide),
    C10_key_alternation.2.1 "a" "1",
    C10_key_alternation.2.2 ["data2.tif", "data1.tif"]⟩

/-- Claim C9: `get_filesindirectory` on a dialog whose directory selection
was never set (the stored text is the empty string, on which `os.chdir`
raises), or whose selected directory no longer exists, fails with the
directory-not-found condition propagated to the caller rather than
returning an empty list; when the directory exists it returns its entries
sorted by the natural-sort key. -/
theorem C9_get_filesindirectory (listdir : String → Option (List String))
    (hnever : listdir "" = none) :
    get_filesindirectory listdir "" = Except.error ImportError.directoryNotFound ∧
    (∀ d, listdir d = none →
      get_filesindirectory listdir d = Except.error ImportError.directoryNotFound) ∧
    (∀ d files, listdir d = some files →
      ∃ m, sorted_natural files = some m ∧
        get_filesindirectory listdir d = Except.ok m) := by
  refine ⟨?_, ?_, ?_⟩
  · simp [get_filesindirectory, hnever]
  · intro d hd
    simp [get_filesindirectory, hd]
  · intro d files hd
    obtain ⟨m, hm⟩ := sorted_natural_isSome files
    exact ⟨m, hm, by simp [get_filesindirectory, hd, hm]⟩

/-- Witness for C9 over the concrete one-directory filesystem
`{"/data" ↦ ["data10.tif", "data2.tif"]}` with nothing at the empty
path. -/
theorem C9_witness :
    ((fun d => if d = "/data" then some ["data10.tif", "data2.tif"] else none)
        "" = (none : Option (List String))) ∧
    get_filesindirectory
        (fun d => if d = "/data" then some ["data10.tif", "data2.tif"] else none)
        "" = Except.error ImportError.directoryNotFound ∧
    (∃ m, sorted_natural ["data10.tif", "data2.tif"] = some m ∧
      get_filesindirectory
        (fun d => if d = "/data" then some ["data10.tif", "data2.tif"] else none)
        "/data" = Except.ok m) :=
  ⟨by decide,
    (C9_get_filesindirectory
      (fun d => if d = "/data" then some ["data10.tif", "data2.tif"] else none)
      (by decide)).1,
    (C9_get_filesindirectory
      (fun d => if d = "/data" then some ["data10.tif", "data2.tif"] else none)
      (by decide)).2.2 "/data" ["data10.tif", "data2.tif"] (by decide)⟩

/-! ## Claim theorem for NXcircle -/

/-- Claim C6: `NXcircle.initialize(xp, yp)` yields a drag state with
`expand = true` exactly when resizing is allowed and the press point's
Euclidean distance from the center exceeds `radius * (1 - border_tol)`;
`update` in expand mode sets the radius to the distance from the center to
the press point plus the drag delta (that is, to the live pointer
position), and in move mode translates the center by the drag delta while
leaving the radius unchanged. -/
theorem C6_circle_drag (c : CircleState) (allow : Bool) (bt xp yp x y : ℝ) :
    ((NXcircle.initPress c allow bt xp yp).expand = true ↔
      (allow = true ∧
        Real.sqrt ((xp - c.cx) ^ 2 + (yp - c.cy) ^ 2) > c.radius * (1 - bt))) ∧
    (∀ (c' : CircleState) (p : CirclePress), p.expand = true →
      NXcircle.update c' p x y =
        { c' with radius := Real.sqrt ((x - p.x0) ^ 2 + (y - p.y0) ^ 2) }) ∧
    (∀ (c' : CircleState) (p : CirclePress), p.expand = false →
      NXcircle.update c' p x y =
        ⟨p.x0 + (x - p.xp), p.y0 + (y - p.yp), p.r0⟩) := by
  refine ⟨?_, ?_, ?_⟩
  · simp [NXcircle.initPress]
  · intro c' p hp
    simp only [NXcircle.update, hp, if_true]
    have h1 : p.xp + (x - p.xp) - p.x0 = x - p.x0 := by ring
    have h2 : p.yp + (y - p.yp) - p.y0 = y - p.y0 := by ring
    rw [h1, h2]
  · intro c' p hp
    simp only [NXcircle.update, hp, Bool.false_eq_true, if_false]

/-- Witness for C6 at the concrete example of the claim: center `(0,0)`,
radius 10, `border_tol = 1/10`; a press at `(19/2, 0)` is in the rim band
(`expand = true`), a press at `(0,0)` is interior (`expand = false`), and
a move-mode drag to `(2,3)` translates the center to `(2,3)` with the
radius still 10. -/
theorem C6_witness :
    (NXcircle.initPress ⟨0, 0, 10⟩ true (1/10) (19/2) 0).expand = true ∧
    (NXcircle.initPress ⟨0, 0, 10⟩ true (1/10) 0 0).expand = false ∧
    NXcircle.update ⟨0, 0, 10⟩ (NXcircle.initPress ⟨0, 0, 10⟩ true (1/10) 0 0)
      2 3 = ⟨2, 3, 10⟩ := by
  have hsq : Real.sqrt ((((19:ℝ)/2) - 0) ^ 2 + ((0:ℝ) - 0) ^ 2) = 19/2 := by
    rw [show (((19:ℝ)/2) - 0) ^ 2 + ((0:ℝ) - 0) ^ 2 = ((19:ℝ)/2) ^ 2 by ring,
      Real.sqrt_sq (by norm_num : (0:ℝ) ≤ 19/2)]
  have hz : Real.sqrt (((0:ℝ) - 0) ^ 2 + ((0:ℝ) - 0) ^ 2) = 0 := by
    rw [show ((0:ℝ) - 0) ^ 2 + ((0:ℝ) - 0) ^ 2 = (0:ℝ) by ring, Real.sqrt_zero]
  have h1 : (NXcircle.initPress ⟨0, 0, 10⟩ true (1/10) (19/2) 0).expand = true := by
    refine ((C6_circle_drag ⟨0, 0, 10⟩ true (1/10) (19/2) 0 0 0).1).mpr ⟨rfl, ?_⟩
    show Real.sqrt ((((19:ℝ)/2) - 0) ^ 2 + ((0:ℝ) - 0) ^ 2) > 10 * (1 - 1/10)
    rw [hsq]
    norm_num
  have h2 : (NXcircle.initPress ⟨0, 0, 10⟩ true (1/10) 0 0).expand = false := by
    rw [Bool.eq_false_iff]
    intro hcon
    have := ((C6_circle_drag ⟨0, 0, 10⟩ true (1/10) 0 0 0 0).1).mp hcon
    rw [show ((0:ℝ) - 0) ^ 2 + ((0:ℝ) - 0) ^ 2 = (0:ℝ) by ring, Real.sqrt_zero]
      at this
    have h10 : (10:ℝ) * (1 - 1/10) = 9 := by norm_num
    rw [h10] at this
    exact absurd this.2 (by norm_num)
  have h3 := (C6_circle_drag ⟨0, 0, 10⟩ true (1/10) 0 0 2 3).2.2 ⟨0, 0, 10⟩
    (NXcircle.initPress ⟨0, 0, 10⟩ true (1/10) 0 0) h2
  refine ⟨h1, h2, ?_⟩
  rw [h3]
  show (⟨(0:ℝ) + (2 - 0), (0:ℝ) + (3 - 0), (10:ℝ)⟩ : CircleState) = ⟨2, 3, 10⟩
  norm_num

end Nexpy
